/-
Verification of the firmware resolution engine of `otaserver/coap.py`
(ota-server repository).

The file shallowly embeds the catalog lookups
(`get_latest_firmware_version`, `get_latest_firmware_filename`,
`get_latest_firmware_binary`), the CoAP resource handlers (`render_get`
of the three resource classes) and the registration routine
(`add_resources`) over an explicit model of the storage directory.
-/
import Mathlib

namespace OtaServer

/-- Value of a single hexadecimal digit character, case-insensitive;
`none` for a non-hex-digit character. -/
def hexDigitVal (c : Char) : Option Nat :=
  let n := c.toNat
  if 48 ≤ n ∧ n ≤ 57 then some (n - 48)
  else if 97 ≤ n ∧ n ≤ 102 then some (n - 87)
  else if 65 ≤ n ∧ n ≤ 70 then some (n - 55)
  else none

/-- Accumulating evaluation of a run of hex digits; `none` as soon as a
non-digit appears. -/
def parseHexDigitsAux : List Char → Nat → Option Nat
  | [], acc => some acc
  | c :: cs, acc =>
    match hexDigitVal c with
    | some d => parseHexDigitsAux cs (16 * acc + d)
    | none => none

/-- Value of a non-empty run of hex digits; `none` on the empty run or on
any non-digit character. -/
def parseHexDigits : List Char → Option Nat
  | [] => none
  | c :: cs => parseHexDigitsAux (c :: cs) 0

/-- Modelled from the spec: numeric value of the version field of a
firmware filename.  The naming convention (spec sections 4.1 and 6, and the
end-to-end example `slot0_app42_0x1_fw.bin`) writes the version as a
case-insensitive hexadecimal string with a `0x` prefix; this mirrors what
Python's `int(field, 16)` accepts for such fields. -/
def parseHex? (s : String) : Option Nat :=
  match s.data with
  | '0' :: x :: rest => if x = 'x' ∨ x = 'X' then parseHexDigits rest else none
  | _ => none

/-- Python's `hex` builtin on a non-negative integer: `0x` followed by the
lowercase hexadecimal digits.  `get_latest_firmware_version` returns
`str(hex(max(all_versions)))`, i.e. exactly this string. -/
def pyHex (n : Nat) : String :=
  "0x" ++ String.mk (Nat.toDigits 16 n)

/-- Split a character list on the `_` delimiter; mirrors Python's
`"..".split(sep)` (adjacent delimiters produce empty fields, the empty
string yields one empty field). -/
def splitOnUnderscore : List Char → List (List Char)
  | [] => [[]]
  | c :: rest =>
    let r := splitOnUnderscore rest
    if c = '_' then [] :: r
    else
      match r with
      | g :: gs => (c :: g) :: gs
      | [] => [[c]]

/-- Modelled from the spec: `get_info_from_filename` lives in
`otaserver/firmware.py`, which `coap.py` imports but which is not part of
this source tree.  Spec section 4.1: the filename is a sequence of fields
separated by a fixed delimiter in a fixed positional order — slot,
application id, hexadecimal version, plus any remaining convention-defined
field (section 6; the end-to-end example is `slot0_app42_0x1_fw.bin`) —
and decoding fails distinguishably (here: `none`) on a filename that does
not match the convention, including a version field that is not a valid
hexadecimal string.  Callers skip entries whose decoding fails. -/
def get_info_from_filename (filename : String) : Option (String × String × String) :=
  match (splitOnUnderscore filename.data).map (fun g => String.mk g) with
  | s :: a :: v :: _rest => if (parseHex? v).isSome then some (s, a, v) else none
  | _ => none

/-- State of the storage directory: the filenames returned by
`os.listdir(fw_path)` in listing order, and the readable regular files
(`content f = some bytes` iff `os.path.isfile` holds for `f` and reading
it yields `bytes`).  The two components are deliberately independent: a
listed entry may be unreadable (deleted after the listing, or a
subdirectory) and vice versa. -/
structure Dir where
  listing : List String
  content : String → Option (List Nat)

/-- The contribution of one directory entry to the version scan of
`get_latest_firmware_version(appid, slot)`: the numeric version when the
entry decodes to the queried pair, `none` otherwise (wrong pair, or a
filename that fails to decode and is skipped). -/
def versionOf (appid slot fw : String) : Option Nat :=
  match get_info_from_filename fw with
  | some (s, a, v) => if a = appid ∧ s = slot then parseHex? v else none
  | none => none

/-- The list `all_versions` built by the comprehension in
`get_latest_firmware_version`, in listing order. -/
def matchingVersions (listing : List String) (appid slot : String) : List Nat :=
  listing.filterMap (versionOf appid slot)

/-- Python's `max` over a list of non-negative integers (0 on the empty
list; the code only applies it to non-empty lists). -/
def listMax (l : List Nat) : Nat :=
  l.foldl Nat.max 0

/-- Embedding of `CoapController.get_latest_firmware_version`: list the
directory, return `''` if it is empty; collect the numeric versions of the
entries decoding to `(slot, appid)`; return `''` if none matched, else
`str(hex(max(all_versions)))`. -/
def get_latest_firmware_version (d : Dir) (appid slot : String) : String :=
  if d.listing = [] then ""
  else if matchingVersions d.listing appid slot = [] then ""
  else pyHex (listMax (matchingVersions d.listing appid slot))

/-- Equality of two string triples viewed as Python sets (mutual
membership of the underlying value lists). -/
def listSetEq (xs ys : List String) : Bool :=
  xs.all (fun x => ys.any (fun y => decide (x = y))) &&
    ys.all (fun y => xs.any (fun x => decide (y = x)))

/-- The match test of `get_latest_firmware_filename`:
`set(get_info_from_filename(fw)) == set((slot, appid, version))`, with an
entry that fails to decode skipped. -/
def firmwareMatches (slot appid version fw : String) : Bool :=
  match get_info_from_filename fw with
  | some (x, y, z) => listSetEq [x, y, z] [slot, appid, version]
  | none => false

/-- A directory entry decodes under the naming convention. -/
def decodes (fw : String) : Bool :=
  (get_info_from_filename fw).isSome

/-- A directory entry decodes to exactly the queried `(appid, slot)` pair
(the filter of the comprehension in `get_latest_firmware_version`). -/
def matchesQueried (appid slot fw : String) : Bool :=
  match get_info_from_filename fw with
  | some (s, a, _) => decide (a = appid) && decide (s = slot)
  | none => false

/-- Embedding of `CoapController.get_latest_firmware_filename`: compute
the latest version; if empty, return `''`; otherwise list the directory
again and keep the entries whose decoded triple, as an unordered set,
equals `set((slot, appid, version))`; return `''` on no match, else the
first match in listing order. -/
def get_latest_firmware_filename (d : Dir) (appid slot : String) : String :=
  if get_latest_firmware_version d appid slot = "" then ""
  else
    match d.listing.filter
        (firmwareMatches slot appid (get_latest_firmware_version d appid slot)) with
    | [] => ""
    | m :: _ => m

/-- A Python value that is either a `bytes` object or a `str`;
`get_latest_firmware_binary` returns `b''` on one failure path and the
text string `''` on the other, so the embedding keeps the distinction. -/
inductive PyStrOrBytes where
  | bytes (bs : List Nat)
  | str (s : String)
deriving DecidableEq

/-- Embedding of `CoapController.get_latest_firmware_binary`.  When the
filename lookup is empty the code executes
`logger.warning("...").format(appid, slot)`: `Logger.warning` returns
`None`, so the attribute access `.format` raises `AttributeError` before
the `return b''` line is reached — modelled as `Except.error`.  When the
resolved path fails the `os.path.isfile` test the code returns the text
string `''` (not `b''`).  Otherwise it returns the file bytes exactly. -/
def get_latest_firmware_binary (d : Dir) (appid slot : String) :
    Except String PyStrOrBytes :=
  if get_latest_firmware_filename d appid slot = "" then
    Except.error "AttributeError"
  else
    match d.content (get_latest_firmware_filename d appid slot) with
    | none => Except.ok (PyStrOrBytes.str "")
    | some bs => Except.ok (PyStrOrBytes.bytes bs)

/-- The CoAP `2.05 Content` response code (`aiocoap.CONTENT`), the numeric
code `69`. -/
def CONTENT : Nat := 69

/-- A CoAP response message as built by the handlers:
`Message(code=CONTENT, payload=...)`. -/
structure Message where
  code : Nat
  payload : PyStrOrBytes
deriving DecidableEq

/-- Python's `str.encode('ascii')`: the code-point bytes when every
character is ASCII, a `UnicodeEncodeError` otherwise. -/
def encodeAscii (s : String) : Except String (List Nat) :=
  if s.data.all (fun c => c.toNat < 128) then Except.ok (s.data.map Char.toNat)
  else Except.error "UnicodeEncodeError"

/-- Embedding of `FirmwareVersionResource.render_get`: a `CONTENT` message
whose payload is the ASCII encoding of the catalog's latest version
string for the `(appid, slot)` pair the resource was registered with. -/
def FirmwareVersionResource.render_get (d : Dir) (appid slot : String) :
    Except String Message :=
  match encodeAscii (get_latest_firmware_version d appid slot) with
  | Except.ok bs => Except.ok ⟨CONTENT, PyStrOrBytes.bytes bs⟩
  | Except.error e => Except.error e

/-- Embedding of `FirmwareNameResource.render_get`: a `CONTENT` message
whose payload is the ASCII encoding of the catalog's latest filename. -/
def FirmwareNameResource.render_get (d : Dir) (appid slot : String) :
    Except String Message :=
  match encodeAscii (get_latest_firmware_filename d appid slot) with
  | Except.ok bs => Except.ok ⟨CONTENT, PyStrOrBytes.bytes bs⟩
  | Except.error e => Except.error e

/-- Embedding of `FirmwareBinaryResource.render_get`: a `CONTENT` message
whose payload is whatever `get_latest_firmware_binary` returned; an
exception escaping the catalog escapes the handler. -/
def FirmwareBinaryResource.render_get (d : Dir) (appid slot : String) :
    Except String Message :=
  match get_latest_firmware_binary d appid slot with
  | Except.ok p => Except.ok ⟨CONTENT, p⟩
  | Except.error e => Except.error e

/-- The three kinds of resource handler registered per `(appid, slot)`
pair. -/
inductive ResKind where
  | version
  | name
  | firmware
deriving DecidableEq

/-- A resource handler as constructed by `add_resources`: its class and
the `(appid, slot)` pair it was bound to at registration time (the shared
controller reference carries no per-resource state). -/
structure Res where
  kind : ResKind
  appid : String
  slot : String
deriving DecidableEq

/-- Modelled from the spec: the resource tree (`aiocoap.resource.Site`,
an external library component not in this source tree) maps a path — a
tuple of path segments — to the handler most recently stored at that
path, dictionary-style. -/
def Site : Type := List String → Option Res

/-- Modelled from the spec: `Site.add_resource(path, res)` stores `res`
at `path`, replacing any handler previously stored there. -/
def addResource (site : Site) (path : List String) (res : Res) : Site :=
  fun q => if q = path then some res else site q

/-- Embedding of `CoapController.add_resources`: decode the filename into
`(slot, app_id, _)` and register the three handlers at
`(app_id, 'version')`, `(app_id, slot, 'name')` and
`(app_id, slot, 'firmware')`, in that order.  A filename that fails to
decode registers nothing (the tuple unpacking has no triple to bind). -/
def add_resources (site : Site) (filename : String) : Site :=
  match get_info_from_filename filename with
  | some (slot, app_id, _) =>
      addResource
        (addResource
          (addResource site [app_id, "version"] ⟨ResKind.version, app_id, slot⟩)
          [app_id, slot, "name"] ⟨ResKind.name, app_id, slot⟩)
        [app_id, slot, "firmware"] ⟨ResKind.firmware, app_id, slot⟩
  | none => site

/-! ### Concrete storage-directory states used below -/

/-- The empty storage directory. -/
def emptyDir : Dir := ⟨[], fun _ => none⟩

/-- Three firmwares for `(app42, slot0)` whose numeric and lexicographic
version orders disagree: numerically `0x10` is the largest, while as a
string it is the smallest of the three. -/
def hexOrderDir : Dir :=
  ⟨["slot0_app42_0x9_x", "slot0_app42_0x10_x", "slot0_app42_0xa_x"],
   fun _ => none⟩

/-- A single conforming firmware file whose bytes are present on disk and
contain non-UTF8 byte values. -/
def oneFileDir : Dir :=
  ⟨["slot0_app42_0x1_fw.bin"],
   fun n => if n = "slot0_app42_0x1_fw.bin" then some [0, 255, 128] else none⟩

/-- A single conforming firmware file that is listed but not readable
(`os.path.isfile` fails: removed after the listing, or a directory). -/
def ghostFileDir : Dir :=
  ⟨["slot0_app42_0x1_fw.bin"], fun _ => none⟩

/-- A single firmware file whose version field `0xA` is valid hexadecimal
but not in the canonical lowercase form `str(hex(...))` produces. -/
def upperHexDir : Dir :=
  ⟨["slot0_app42_0xA_fw.bin"], fun _ => none⟩

/-- The directory of the spec's no-match-isolation example: two files for
two different `(slot, appid)` pairs sharing the version-bearing slot
`slotA`. -/
def twoAppDir : Dir :=
  ⟨["app1_slotA_0x5_x", "app2_slotA_0x9_x"], fun _ => none⟩

/-- A directory where the queried slot and appid coincide (`app`), so the
match key `set((slot, appid, version))` collapses to two elements; the
first listed file carries the version string in its slot field and still
matches. -/
def collapseDir : Dir :=
  ⟨["0x5_app_0x5_x", "app_app_0x5_x"], fun _ => none⟩

/-- The resource tree before any registration. -/
def emptySite : Site := fun _ => none

/-! ### Helper lemmas -/

theorem foldl_max_init (l : List Nat) : ∀ a : Nat, a ≤ l.foldl Nat.max a := by
  induction l with
  | nil => intro a; exact Nat.le_refl a
  | cons x xs ih =>
    intro a
    exact Nat.le_trans (Nat.le_max_left a x) (ih (Nat.max a x))

theorem foldl_max_le_of_mem (l : List Nat) :
    ∀ (a x : Nat), x ∈ l → x ≤ l.foldl Nat.max a := by
  induction l with
  | nil => intro a x hx; cases hx
  | cons y ys ih =>
    intro a x hx
    rcases List.mem_cons.mp hx with h | h
    · subst h
      exact Nat.le_trans (Nat.le_max_right a x) (foldl_max_init ys (Nat.max a x))
    · exact ih (Nat.max a y) x h

theorem foldl_max_mem (l : List Nat) :
    ∀ a : Nat, l.foldl Nat.max a = a ∨ l.foldl Nat.max a ∈ l := by
  induction l with
  | nil => intro a; exact Or.inl rfl
  | cons y ys ih =>
    intro a
    rcases ih (Nat.max a y) with h | h
    · rcases Nat.le_total a y with hle | hle
      · right
        have hm : Nat.max a y = y := Nat.max_eq_right hle
        rw [List.foldl_cons, h, hm]
        exact List.mem_cons_self y ys
      · left
        have hm : Nat.max a y = a := Nat.max_eq_left hle
        rw [List.foldl_cons, h, hm]
    · right
      exact List.mem_cons_of_mem y h

theorem le_listMax (l : List Nat) : ∀ x ∈ l, x ≤ listMax l :=
  fun x hx => foldl_max_le_of_mem l 0 x hx

theorem listMax_mem (l : List Nat) (h : l ≠ []) : listMax l ∈ l := by
  rcases foldl_max_mem l 0 with h0 | hm
  · obtain ⟨y, hy⟩ := List.exists_mem_of_ne_nil l h
    have hy0 : y = 0 := Nat.le_zero.mp (h0 ▸ le_listMax l y hy)
    unfold listMax
    rw [h0, ← hy0]
    exact hy
  · exact hm

theorem pyHex_ne_empty (n : Nat) : pyHex n ≠ "" := by
  intro h
  have h2 : (pyHex n).data = ([] : List Char) := by rw [h]
  have h3 : (pyHex n).data = '0' :: 'x' :: Nat.toDigits 16 n := rfl
  rw [h3] at h2
  exact List.noConfusion h2

theorem matchingVersions_nil (appid slot : String) :
    matchingVersions [] appid slot = [] := rfl

theorem version_eq_pyHex (d : Dir) (appid slot : String)
    (h : matchingVersions d.listing appid slot ≠ []) :
    get_latest_firmware_version d appid slot =
      pyHex (listMax (matchingVersions d.listing appid slot)) := by
  have hl : d.listing ≠ [] := by
    intro he
    exact h (by rw [he]; rfl)
  unfold get_latest_firmware_version
  rw [if_neg hl, if_neg h]

theorem version_ne_empty_iff (d : Dir) (appid slot : String) :
    get_latest_firmware_version d appid slot ≠ "" ↔
      matchingVersions d.listing appid slot ≠ [] := by
  constructor
  · intro h hm
    apply h
    unfold get_latest_firmware_version
    rw [hm]
    simp
  · intro hm
    rw [version_eq_pyHex d appid slot hm]
    exact pyHex_ne_empty _

theorem listSetEq_iff (xs ys : List String) :
    listSetEq xs ys = true ↔ ∀ w, w ∈ xs ↔ w ∈ ys := by
  unfold listSetEq
  rw [Bool.and_eq_true, List.all_eq_true, List.all_eq_true]
  constructor
  · rintro ⟨h1, h2⟩ w
    constructor
    · intro hw
      obtain ⟨y, hy, hd⟩ := List.any_eq_true.mp (h1 w hw)
      exact (of_decide_eq_true hd) ▸ hy
    · intro hw
      obtain ⟨y, hy, hd⟩ := List.any_eq_true.mp (h2 w hw)
      exact (of_decide_eq_true hd) ▸ hy
  · intro h
    constructor
    · intro w hw
      exact List.any_eq_true.mpr ⟨w, (h w).mp hw, decide_eq_true rfl⟩
    · intro w hw
      exact List.any_eq_true.mpr ⟨w, (h w).mpr hw, decide_eq_true rfl⟩

theorem listSetEq_refl (xs : List String) : listSetEq xs xs = true :=
  (listSetEq_iff xs xs).mpr (fun _ => Iff.rfl)

theorem head?_filter_eq_find? (p : String → Bool) (l : List String) :
    (l.filter p).head? = l.find? p := by
  induction l with
  | nil => rfl
  | cons x xs ih =>
    by_cases h : p x = true
    · rw [List.filter_cons_of_pos h, List.find?_cons_of_pos _ h]
      rfl
    · rw [List.filter_cons_of_neg (by simp [h]), List.find?_cons_of_neg _ (by simp [h])]
      exact ih

theorem filterMap_filter_of_none {α β : Type} (f : α → Option β) (p : α → Bool)
    (hp : ∀ x, p x = false → f x = none) (l : List α) :
    (l.filter p).filterMap f = l.filterMap f := by
  induction l with
  | nil => rfl
  | cons x xs ih =>
    by_cases h : p x = true
    · rw [List.filter_cons_of_pos h, List.filterMap_cons, List.filterMap_cons]
      cases f x with
      | none => exact ih
      | some b => rw [ih]
    · have hf : f x = none := hp x (Bool.eq_false_iff.mpr h)
      rw [List.filter_cons_of_neg (by simp [h]), List.filterMap_cons, hf]
      exact ih

theorem version_filter_invariant (d : Dir) (appid slot : String) (p : String → Bool)
    (hp : ∀ fw, p fw = false → versionOf appid slot fw = none) :
    get_latest_firmware_version ⟨d.listing.filter p, d.content⟩ appid slot =
      get_latest_firmware_version d appid slot := by
  have hmv : matchingVersions (d.listing.filter p) appid slot =
      matchingVersions d.listing appid slot :=
    filterMap_filter_of_none (versionOf appid slot) p hp d.listing
  unfold get_latest_firmware_version
  dsimp only
  rw [hmv]
  by_cases h2 : matchingVersions d.listing appid slot = []
  · rw [h2]
    simp
  · have hl : d.listing ≠ [] := fun he => h2 (by rw [he]; rfl)
    have hlf : d.listing.filter p ≠ [] := by
      intro he
      apply h2
      rw [← hmv, he]
      rfl
    rw [if_neg hl, if_neg hlf, if_neg h2]

/-! ### Claim theorems -/

/-- C1: the claim says every catalog lookup returns a value and never
raises; on the empty storage directory `get_latest_firmware_version` and
`get_latest_firmware_filename` do return `''`, but
`get_latest_firmware_binary` raises `AttributeError` — the code executes
`logger.warning(...).format(appid, slot)`, calling `.format` on the `None`
that `logger.warning` returns, before its `return b''` line — so the
claim fails on the code at its own stated input. -/
theorem empty_dir_lookup_outcomes :
    get_latest_firmware_version emptyDir "app42" "slot0" = "" ∧
    get_latest_firmware_filename emptyDir "app42" "slot0" = "" ∧
    get_latest_firmware_binary emptyDir "app42" "slot0" =
      Except.error "AttributeError" :=
  ⟨rfl, rfl, rfl⟩

/-- C2: when every directory entry decodes to the queried `(appid, slot)`
with distinct decodable versions, `get_latest_firmware_version` returns
`hex(m)` for the numeric maximum `m` of those versions (the order is the
integer order on the parsed values, not string order on the hex texts). -/
theorem latest_version_is_numeric_max (d : Dir) (appid slot : String)
    (hne : d.listing ≠ [])
    (hall : ∀ fw ∈ d.listing, ∃ v n,
        get_info_from_filename fw = some (slot, appid, v) ∧ parseHex? v = some n)
    (_hdis : (matchingVersions d.listing appid slot).Pairwise (fun x y => x ≠ y)) :
    ∃ m, m ∈ matchingVersions d.listing appid slot ∧
      (∀ x ∈ matchingVersions d.listing appid slot, x ≤ m) ∧
      get_latest_firmware_version d appid slot = pyHex m := by
  have hm : matchingVersions d.listing appid slot ≠ [] := by
    cases hcase : d.listing with
    | nil => exact absurd hcase hne
    | cons fw rest =>
      obtain ⟨v, n, hdec, hp⟩ :=
        hall fw (by rw [hcase]; exact List.mem_cons_self fw rest)
      have hvo : versionOf appid slot fw = some n := by
        simp [versionOf, hdec, hp]
      unfold matchingVersions
      rw [List.filterMap_cons, hvo]
      simp
  exact ⟨listMax (matchingVersions d.listing appid slot), listMax_mem _ hm,
    le_listMax _, version_eq_pyHex d appid slot hm⟩

/-- Witness for C2 on a directory of three firmwares for `(app42, slot0)`
with versions `0x9`, `0x10` and `0xa`: the returned maximum is the
numerically largest `0x10` (the lexicographically smallest of the
three version strings). -/
theorem latest_version_is_numeric_max_witness :
    ∃ m, m ∈ matchingVersions hexOrderDir.listing "app42" "slot0" ∧
      (∀ x ∈ matchingVersions hexOrderDir.listing "app42" "slot0", x ≤ m) ∧
      get_latest_firmware_version hexOrderDir "app42" "slot0" = pyHex m :=
  latest_version_is_numeric_max hexOrderDir "app42" "slot0"
    (by decide)
    (by
      intro fw hfw
      have hmem : fw ∈ ["slot0_app42_0x9_x", "slot0_app42_0x10_x",
          "slot0_app42_0xa_x"] := hfw
      simp only [List.mem_cons, List.not_mem_nil, or_false] at hmem
      rcases hmem with h | h | h
      · exact h ▸ ⟨"0x9", 9, rfl, rfl⟩
      · exact h ▸ ⟨"0x10", 16, rfl, rfl⟩
      · exact h ▸ ⟨"0xa", 10, rfl, rfl⟩)
    (by decide)

/-- C4: `get_latest_firmware_binary` does return the exact bytes of the
resolved file when it exists (here a file with non-UTF8 byte values), but
on the two failure paths the claim fails on the code: an empty filename
lookup raises `AttributeError` (the `.format` slip) instead of returning
`b''`, and a resolved path that fails the `isfile` test returns the text
string `''`, not the bytes `b''`. -/
theorem binary_read_and_failure_modes :
    get_latest_firmware_binary oneFileDir "app42" "slot0" =
      Except.ok (PyStrOrBytes.bytes [0, 255, 128]) ∧
    get_latest_firmware_binary ghostFileDir "app42" "slot0" =
      Except.ok (PyStrOrBytes.str "") ∧
    get_latest_firmware_binary emptyDir "app42" "slot0" =
      Except.error "AttributeError" :=
  ⟨rfl, rfl, rfl⟩

/-- C8: the version and name handlers answer every GET with a `CONTENT`
message whose payload is the ASCII encoding of the catalog result — also
when that result is empty — but the binary handler violates the claim on
the empty-catalog miss: the `AttributeError` raised inside
`get_latest_firmware_binary` escapes `render_get`, so no `CONTENT`
response with an empty payload is produced.  On a hit all three handlers
return `CONTENT` with exactly the catalog result as payload. -/
theorem handlers_content_code_outcomes :
    FirmwareVersionResource.render_get emptyDir "app42" "slot0" =
      Except.ok ⟨CONTENT, PyStrOrBytes.bytes []⟩ ∧
    FirmwareNameResource.render_get emptyDir "app42" "slot0" =
      Except.ok ⟨CONTENT, PyStrOrBytes.bytes []⟩ ∧
    FirmwareBinaryResource.render_get emptyDir "app42" "slot0" =
      Except.error "AttributeError" ∧
    FirmwareVersionResource.render_get oneFileDir "app42" "slot0" =
      Except.ok ⟨CONTENT, PyStrOrBytes.bytes [48, 120, 49]⟩ ∧
    FirmwareNameResource.render_get oneFileDir "app42" "slot0" =
      Except.ok ⟨CONTENT, PyStrOrBytes.bytes [115, 108, 111, 116, 48, 95, 97,
        112, 112, 52, 50, 95, 48, 120, 49, 95, 102, 119, 46, 98, 105, 110]⟩ ∧
    FirmwareBinaryResource.render_get oneFileDir "app42" "slot0" =
      Except.ok ⟨CONTENT, PyStrOrBytes.bytes [0, 255, 128]⟩ :=
  ⟨rfl, rfl, rfl, rfl, rfl, rfl⟩

/-- C3: when the version lookup is non-empty,
`get_latest_firmware_filename` returns the head of the sublist of
directory entries passing the unordered-set match against
`set((slot, appid, version))` (empty string when none passes), which is
exactly the first entry of the listing satisfying the match
(`List.find?`). -/
theorem filename_is_first_set_match (d : Dir) (appid slot : String)
    (h : get_latest_firmware_version d appid slot ≠ "") :
    get_latest_firmware_filename d appid slot =
      ((d.listing.filter (firmwareMatches slot appid
          (get_latest_firmware_version d appid slot))).headD "") ∧
    get_latest_firmware_filename d appid slot =
      ((d.listing.find? (firmwareMatches slot appid
          (get_latest_firmware_version d appid slot))).getD "") := by
  have h1 : get_latest_firmware_filename d appid slot =
      ((d.listing.filter (firmwareMatches slot appid
          (get_latest_firmware_version d appid slot))).headD "") := by
    unfold get_latest_firmware_filename
    rw [if_neg h]
    cases hf : d.listing.filter (firmwareMatches slot appid
        (get_latest_firmware_version d appid slot)) with
    | nil => rfl
    | cons m ms => rfl
  refine ⟨h1, ?_⟩
  rw [h1, ← head?_filter_eq_find?]
  cases d.listing.filter (firmwareMatches slot appid
      (get_latest_firmware_version d appid slot)) with
  | nil => rfl
  | cons m ms => rfl

/-- Witness for C3 on a one-file directory for `(app42, slot0)`. -/
theorem filename_is_first_set_match_witness :
    get_latest_firmware_filename oneFileDir "app42" "slot0" =
      ((oneFileDir.listing.filter (firmwareMatches "slot0" "app42"
          (get_latest_firmware_version oneFileDir "app42" "slot0"))).headD "") ∧
    get_latest_firmware_filename oneFileDir "app42" "slot0" =
      ((oneFileDir.listing.find? (firmwareMatches "slot0" "app42"
          (get_latest_firmware_version oneFileDir "app42" "slot0"))).getD "") :=
  filename_is_first_set_match oneFileDir "app42" "slot0" (by decide)

/-- C5 counterexample: an unchanged storage directory holding only
`slot0_app42_0xA_fw.bin` — a decodable filename whose version field is
valid case-insensitive hexadecimal but not in the canonical lowercase
form produced by `str(hex(...))` — makes `get_latest_firmware_version`
return the non-empty `0xa` while `get_latest_firmware_filename` returns
the empty string: the set match compares the canonical string `0xa`
against the on-disk field `0xA` and finds no file, with no filesystem
race involved. -/
theorem version_nonempty_filename_empty_cex :
    get_latest_firmware_version upperHexDir "app42" "slot0" ≠ "" ∧
    get_latest_firmware_filename upperHexDir "app42" "slot0" = "" :=
  ⟨by decide, rfl⟩

/-- C5 amended: on an unchanged storage directory all of whose decodable
entries carry their version field in the canonical form produced by
`str(hex(...))` (lowercase digits, `0x` prefix), a non-empty version
lookup implies a non-empty filename lookup. -/
theorem version_nonempty_gives_filename_nonempty (d : Dir) (appid slot : String)
    (hcanon : ∀ fw ∈ d.listing, ∀ s a v,
        get_info_from_filename fw = some (s, a, v) →
        ∃ n, parseHex? v = some n ∧ v = pyHex n)
    (h : get_latest_firmware_version d appid slot ≠ "") :
    get_latest_firmware_filename d appid slot ≠ "" := by
  have hm := (version_ne_empty_iff d appid slot).mp h
  have hver := version_eq_pyHex d appid slot hm
  have hmem : listMax (matchingVersions d.listing appid slot) ∈
      matchingVersions d.listing appid slot := listMax_mem _ hm
  unfold matchingVersions at hmem
  obtain ⟨fw, hfw, hvo⟩ := List.mem_filterMap.mp hmem
  unfold versionOf at hvo
  cases hdec : get_info_from_filename fw with
  | none =>
    rw [hdec] at hvo
    exact Option.noConfusion hvo
  | some t =>
    obtain ⟨s, a, v⟩ := t
    rw [hdec] at hvo
    simp only [] at hvo
    by_cases hc : a = appid ∧ s = slot
    · rw [if_pos hc] at hvo
      obtain ⟨n, hpn, hvn⟩ := hcanon fw hfw s a v hdec
      have hnm : n = listMax (matchingVersions d.listing appid slot) := by
        rw [hpn] at hvo
        exact Option.some.inj hvo
      have hfmatch : firmwareMatches slot appid
          (get_latest_firmware_version d appid slot) fw = true := by
        rw [hver, ← hnm, ← hvn]
        unfold firmwareMatches
        rw [hdec]
        simp only []
        rw [← hc.1, ← hc.2]
        exact listSetEq_refl [s, a, v]
      unfold get_latest_firmware_filename
      rw [if_neg h]
      cases hfl : d.listing.filter (firmwareMatches slot appid
          (get_latest_firmware_version d appid slot)) with
      | nil =>
        have hin : fw ∈ d.listing.filter (firmwareMatches slot appid
            (get_latest_firmware_version d appid slot)) :=
          List.mem_filter.mpr ⟨hfw, hfmatch⟩
        rw [hfl] at hin
        exact absurd hin (List.not_mem_nil fw)
      | cons m ms =>
        have hmf : firmwareMatches slot appid
            (get_latest_firmware_version d appid slot) m = true := by
          apply List.of_mem_filter (l := d.listing)
          rw [hfl]
          exact List.mem_cons_self m ms
        intro hme
        have hme2 : m = "" := hme
        rw [hme2] at hmf
        have hfalse : firmwareMatches slot appid
            (get_latest_firmware_version d appid slot) "" = false := rfl
        rw [hfalse] at hmf
        exact Bool.noConfusion hmf
    · rw [if_neg hc] at hvo
      exact Option.noConfusion hvo

/-- Witness for the amended C5 on a one-file directory whose version
field `0x1` is canonical. -/
theorem version_nonempty_gives_filename_nonempty_witness :
    get_latest_firmware_filename oneFileDir "app42" "slot0" ≠ "" :=
  version_nonempty_gives_filename_nonempty oneFileDir "app42" "slot0"
    (by
      intro fw hfw s a v hdec
      have hmem : fw ∈ ["slot0_app42_0x1_fw.bin"] := hfw
      simp only [List.mem_singleton] at hmem
      subst hmem
      have hd : (some ("slot0", "app42", "0x1") :
          Option (String × String × String)) = some (s, a, v) := by
        rw [← hdec]
        rfl
      have h2 := Option.some.inj hd
      injection h2 with hs h3
      injection h3 with ha hv
      exact ⟨1, by rw [← hv]; rfl, by rw [← hv]; rfl⟩)
    (by decide)

/-- C6: directory entries that fail to decode under the naming convention
never influence either catalog scan: deleting every undecodable entry
from the listing changes neither `get_latest_firmware_version` nor
`get_latest_firmware_filename`, for every directory state and every
queried pair. -/
theorem undecodable_entries_never_influence (d : Dir) (appid slot : String) :
    get_latest_firmware_version ⟨d.listing.filter decodes, d.content⟩ appid slot =
      get_latest_firmware_version d appid slot ∧
    get_latest_firmware_filename ⟨d.listing.filter decodes, d.content⟩ appid slot =
      get_latest_firmware_filename d appid slot := by
  have hp : ∀ fw, decodes fw = false → versionOf appid slot fw = none := by
    intro fw hfw
    unfold decodes at hfw
    unfold versionOf
    cases hdec : get_info_from_filename fw with
    | none => rfl
    | some t =>
      rw [hdec] at hfw
      exact absurd hfw (by simp)
  have hv := version_filter_invariant d appid slot decodes hp
  refine ⟨hv, ?_⟩
  unfold get_latest_firmware_filename
  dsimp only
  rw [hv]
  by_cases h : get_latest_firmware_version d appid slot = ""
  · rw [if_pos h, if_pos h]
  · rw [if_neg h, if_neg h]
    have hff : (d.listing.filter decodes).filter (firmwareMatches slot appid
        (get_latest_firmware_version d appid slot)) =
        d.listing.filter (firmwareMatches slot appid
          (get_latest_firmware_version d appid slot)) := by
      rw [List.filter_filter]
      apply List.filter_congr
      intro fw _
      cases hdec : get_info_from_filename fw with
      | none =>
        have hm0 : firmwareMatches slot appid
            (get_latest_firmware_version d appid slot) fw = false := by
          unfold firmwareMatches
          rw [hdec]
        rw [hm0, Bool.false_and]
      | some t =>
        have hd1 : decodes fw = true := by
          unfold decodes
          rw [hdec]
          rfl
        rw [hd1, Bool.and_true]
    rw [hff]

/-- C9 counterexample: the claim's own example fails on the code.  With
files `app1_slotA_0x5_x` and `app2_slotA_0x9_x` present, the query
`get_latest_firmware_version("app1", "slotA")` returns `''`, not `0x5`:
under the naming convention the first field is the slot and the second
the application id, so neither file decodes to appid `app1` with slot
`slotA`. -/
theorem no_match_isolation_example_cex :
    get_latest_firmware_version twoAppDir "app1" "slotA" ≠ "0x5" := by
  decide

/-- C9 amended: entries decoding to a different appid or slot never
influence `get_latest_firmware_version` — restricting the listing to the
entries decoding to the queried pair leaves the result unchanged for
every directory state — and the claim's example holds once its query
arguments follow the convention's field order:
`get_latest_firmware_version("slotA", "app1")` on the same two files is
`0x5`, untouched by the `0x9` of the other pair. -/
theorem version_computed_from_matching_only :
    (∀ (d : Dir) (appid slot : String),
        get_latest_firmware_version
            ⟨d.listing.filter (matchesQueried appid slot), d.content⟩ appid slot =
          get_latest_firmware_version d appid slot) ∧
    get_latest_firmware_version twoAppDir "slotA" "app1" = "0x5" := by
  constructor
  · intro d appid slot
    apply version_filter_invariant
    intro fw h
    unfold matchesQueried at h
    unfold versionOf
    cases hdec : get_info_from_filename fw with
    | none => rfl
    | some t =>
      obtain ⟨s, a, v⟩ := t
      rw [hdec] at h
      simp only [] at h
      have hcond : ¬(a = appid ∧ s = slot) := by
        rintro ⟨ha, hs⟩
        rw [ha, hs] at h
        simp at h
      exact if_neg hcond
  · rfl

/-- C10: the match test of `get_latest_firmware_filename` is genuinely
set-based — for any decodable filename it succeeds exactly when the
decoded fields and the query fields have the same members, regardless of
which field carries which value.  Concretely, with queried slot and appid
both `app` (a collapsed two-element key), the lookup returns
`0x5_app_0x5_x`, a file whose slot field is the version string `0x5`,
not the queried slot. -/
theorem match_key_collapses_to_set :
    (∀ slot appid version fw x y z : String,
        get_info_from_filename fw = some (x, y, z) →
        (firmwareMatches slot appid version fw = true ↔
          ∀ w : String, w ∈ [x, y, z] ↔ w ∈ [slot, appid, version])) ∧
    get_latest_firmware_filename collapseDir "app" "app" = "0x5_app_0x5_x" := by
  constructor
  · intro slot appid version fw x y z hdec
    unfold firmwareMatches
    rw [hdec]
    exact listSetEq_iff [x, y, z] [slot, appid, version]
  · rfl

/-- Witness for C10: the file `0x5_app_0x5_x` decodes to
`("0x5", "app", "0x5")` and matches the query key
`set(("app", "app", "0x5"))` although its slot field is `0x5`. -/
theorem match_key_collapses_to_set_witness :
    firmwareMatches "app" "app" "0x5" "0x5_app_0x5_x" = true ↔
      (∀ w : String, w ∈ ["0x5", "app", "0x5"] ↔ w ∈ ["app", "app", "0x5"]) :=
  match_key_collapses_to_set.1 "app" "app" "0x5" "0x5_app_0x5_x"
    "0x5" "app" "0x5" rfl

/-- C7: registering two filenames that decode to the same
`(appid, slot)` pair is idempotent: afterwards the three canonical paths
each hold exactly the one expected handler bound to that pair, every
other path is untouched, and the double registration equals the single
registration of the second filename (no duplicate or conflicting
attachment). -/
theorem add_resources_idempotent (site : Site) (f1 f2 slot appid v1 v2 : String)
    (h1 : get_info_from_filename f1 = some (slot, appid, v1))
    (h2 : get_info_from_filename f2 = some (slot, appid, v2)) :
    add_resources (add_resources site f1) f2 [appid, "version"] =
        some ⟨ResKind.version, appid, slot⟩ ∧
    add_resources (add_resources site f1) f2 [appid, slot, "name"] =
        some ⟨ResKind.name, appid, slot⟩ ∧
    add_resources (add_resources site f1) f2 [appid, slot, "firmware"] =
        some ⟨ResKind.firmware, appid, slot⟩ ∧
    (∀ p : List String, p ≠ [appid, "version"] → p ≠ [appid, slot, "name"] →
        p ≠ [appid, slot, "firmware"] →
        add_resources (add_resources site f1) f2 p = site p) ∧
    add_resources (add_resources site f1) f2 = add_resources site f2 := by
  unfold add_resources
  rw [h1, h2]
  simp only [addResource]
  refine ⟨?_, ?_, ?_, ?_, ?_⟩
  · simp
  · simp
  · simp
  · intro p hp1 hp2 hp3
    rw [if_neg hp3, if_neg hp2, if_neg hp1, if_neg hp3, if_neg hp2, if_neg hp1]
  · funext q
    simp only [addResource]
    by_cases e3 : q = [appid, slot, "firmware"]
    · rw [if_pos e3, if_pos e3]
    · by_cases e2 : q = [appid, slot, "name"]
      · rw [if_neg e3, if_neg e3, if_pos e2, if_pos e2]
      · by_cases e1 : q = [appid, "version"]
        · rw [if_neg e3, if_neg e3, if_neg e2, if_neg e2, if_pos e1, if_pos e1]
        · rw [if_neg e3, if_neg e2, if_neg e1, if_neg e3, if_neg e2, if_neg e1]

/-- Witness for C7: registering `slot0_app42_0x1_fw.bin` and then
`slot0_app42_0x2_fw.bin` on the empty site. -/
theorem add_resources_idempotent_witness :
    add_resources (add_resources emptySite "slot0_app42_0x1_fw.bin")
        "slot0_app42_0x2_fw.bin" ["app42", "version"] =
        some ⟨ResKind.version, "app42", "slot0"⟩ ∧
    add_resources (add_resources emptySite "slot0_app42_0x1_fw.bin")
        "slot0_app42_0x2_fw.bin" ["app42", "slot0", "name"] =
        some ⟨ResKind.name, "app42", "slot0"⟩ ∧
    add_resources (add_resources emptySite "slot0_app42_0x1_fw.bin")
        "slot0_app42_0x2_fw.bin" ["app42", "slot0", "firmware"] =
        some ⟨ResKind.firmware, "app42", "slot0"⟩ ∧
    (∀ p : List String, p ≠ ["app42", "version"] → p ≠ ["app42", "slot0", "name"] →
        p ≠ ["app42", "slot0", "firmware"] →
        add_resources (add_resources emptySite "slot0_app42_0x1_fw.bin")
            "slot0_app42_0x2_fw.bin" p = emptySite p) ∧
    add_resources (add_resources emptySite "slot0_app42_0x1_fw.bin")
        "slot0_app42_0x2_fw.bin" =
      add_resources emptySite "slot0_app42_0x2_fw.bin" :=
  add_resources_idempotent emptySite "slot0_app42_0x1_fw.bin"
    "slot0_app42_0x2_fw.bin" "slot0" "app42" "0x1" "0x2" rfl rfl

end OtaServer
